import Mathlib

/-!
# Verification of the JRA prediction score pipeline (`src/jra_predict.py`)

This file gives a shallow embedding, in Lean 4, of the pure scoring core of
`jra_predict.py`: min-max normalization (`normalize_to_0_100`), the sufficiency
gate (`enough_points`), score combination (`combine_scores`), flatness detection
(`is_flat_score`), the display transform (`compress_0_100`,
`scale_score_0_100_to_range`, `build_display_scores`), the seeded hash utility
(`stable_hash_to_0_1`, backed by a full embedding of MD5), the tie jitter
(`apply_tie_jitter_top5`) and the congestion calculator
(`calc_konsen_from_picks`).

Python floats are modelled as exact rationals (`ℚ`), Python ints as `ℤ`/`ℕ`,
Python dicts either as association lists (`List (ℕ × ℚ)`) or pointwise as
`ℕ → Option ℚ`, and module-level configuration constants (read from environment
variables in the source) as explicit function parameters, with the source's
default values provided as named definitions.

`round(x, n)` in Python rounds half to even; it is embedded exactly as
`roundHalfEven` below.  The MD5 embedding follows RFC 1321 and is pinned to the
reference digests of its test suite.
-/

set_option maxRecDepth 100000

namespace JraPredict

/-! ## Python `round` (banker's rounding, half to even) -/

/-- Round a rational to the nearest integer, ties to the even integer —
the semantics of Python's built-in `round`. -/
def roundHalfEven (x : ℚ) : ℤ :=
  if x - ⌊x⌋ < 1/2 then ⌊x⌋
  else if 1/2 < x - ⌊x⌋ then ⌊x⌋ + 1
  else if ⌊x⌋ % 2 = 0 then ⌊x⌋ else ⌊x⌋ + 1

/-- Python `round(x, 2)`. -/
def round2 (x : ℚ) : ℚ := (roundHalfEven (x * 100) : ℚ) / 100

/-- Python `round(x, 1)`. -/
def round1 (x : ℚ) : ℚ := (roundHalfEven (x * 10) : ℚ) / 10

/-- A rational representable with two decimal digits (the form every Python
`round(_, 2)` result has). -/
def IsCent (x : ℚ) : Prop := ∃ z : ℤ, x * 100 = (z : ℚ)

/-- A rational representable with one decimal digit (the form every Python
`round(_, 1)` result has). -/
def IsDeci (x : ℚ) : Prop := ∃ z : ℤ, x * 10 = (z : ℚ)

/-! ## Python `min` / `max` over a list of floats -/

/-- Python `min(xs)` for a nonempty list (the `[]` case is never reached at the
call sites, which guard on emptiness; we return `0` there). -/
def pyMin : List ℚ → ℚ
  | [] => 0
  | x :: xs => xs.foldl min x

/-- Python `max(xs)` for a nonempty list. -/
def pyMax : List ℚ → ℚ
  | [] => 0
  | x :: xs => xs.foldl max x

/-! ## MD5 (RFC 1321)

The source derives deterministic fractions from `hashlib.md5(seed.encode("utf-8"))`.
We embed MD5 in full over byte lists (`List ℕ`, each entry `< 256`), with 32-bit
words as `ℕ` reduced `% 2^32`, and pin the embedding to the RFC 1321 reference
digests below. -/

/-- UTF-8 encoding of a single character (what Python's `str.encode("utf-8")`
does per code point). -/
def utf8EncodeCharBytes (c : Char) : List ℕ :=
  let n := c.toNat
  if n < 128 then [n]
  else if n < 2048 then [192 ||| (n >>> 6), 128 ||| (n &&& 63)]
  else if n < 65536 then
    [224 ||| (n >>> 12), 128 ||| ((n >>> 6) &&& 63), 128 ||| (n &&& 63)]
  else
    [240 ||| (n >>> 18), 128 ||| ((n >>> 12) &&& 63),
     128 ||| ((n >>> 6) &&& 63), 128 ||| (n &&& 63)]

/-- `seed.encode("utf-8")` as a byte list. -/
def utf8Bytes (s : String) : List ℕ :=
  (s.data.map utf8EncodeCharBytes).flatten

/-- Little-endian byte decomposition: `bytesLE k n` is the `k` low bytes of `n`. -/
def bytesLE : ℕ → ℕ → List ℕ
  | 0, _ => []
  | k + 1, n => (n % 256) :: bytesLE k (n / 256)

/-- MD5 padding: append `0x80`, zero bytes to reach 56 mod 64, then the bit
length as 8 little-endian bytes. -/
def md5Pad (msg : List ℕ) : List ℕ :=
  let L := msg.length
  let z := (120 - ((L + 1) % 64)) % 64
  msg ++ [128] ++ List.replicate z 0 ++ bytesLE 8 ((8 * L) % 2 ^ 64)

/-- Split into 64-byte blocks (fuel-driven so that the kernel can evaluate it;
`fuel = l.length` always suffices). -/
def chunks64 : ℕ → List ℕ → List (List ℕ)
  | 0, _ => []
  | _, [] => []
  | fuel + 1, l => l.take 64 :: chunks64 fuel (l.drop 64)

/-- 32-bit left rotation. -/
def rotl32 (x n : ℕ) : ℕ := ((x <<< n) ||| (x >>> (32 - n))) % 2 ^ 32

/-- The 64 MD5 sine-derived constants `K[i] = floor(abs(sin(i+1)) * 2^32)`. -/
def md5K : List ℕ :=
  [3614090360, 3905402710, 606105819, 3250441966, 4118548399, 1200080426,
   2821735955, 4249261313, 1770035416, 2336552879, 4294925233, 2304563134,
   1804603682, 4254626195, 2792965006, 1236535329, 4129170786, 3225465664,
   643717713, 3921069994, 3593408605, 38016083, 3634488961, 3889429448,
   568446438, 3275163606, 4107603335, 1163531501, 2850285829, 4243563512,
   1735328473, 2368359562, 4294588738, 2272392833, 1839030562, 4259657740,
   2763975236, 1272893353, 4139469664, 3200236656, 681279174, 3936430074,
   3572445317, 76029189, 3654602809, 3873151461, 530742520, 3299628645,
   4096336452, 1126891415, 2878612391, 4237533241, 1700485571, 2399980690,
   4293915773, 2240044497, 1873313359, 4264355552, 2734768916, 1309151649,
   4149444226, 3174756917, 718787259, 3951481745]

/-- The 64 MD5 per-round left-rotation amounts. -/
def md5S : List ℕ :=
  [7, 12, 17, 22, 7, 12, 17, 22, 7, 12, 17, 22, 7, 12, 17, 22,
   5, 9, 14, 20, 5, 9, 14, 20, 5, 9, 14, 20, 5, 9, 14, 20,
   4, 11, 16, 23, 4, 11, 16, 23, 4, 11, 16, 23, 4, 11, 16, 23,
   6, 10, 15, 21, 6, 10, 15, 21, 6, 10, 15, 21, 6, 10, 15, 21]

/-- The `j`-th little-endian 32-bit word of a 64-byte block. -/
def md5Word (blk : List ℕ) (j : ℕ) : ℕ :=
  blk.getD (4 * j) 0 + 256 * blk.getD (4 * j + 1) 0 +
    65536 * blk.getD (4 * j + 2) 0 + 16777216 * blk.getD (4 * j + 3) 0

/-- One MD5 round `i` (0-based) on the state `(A, B, C, D)`. -/
def md5Step (blk : List ℕ) (i : ℕ) : ℕ × ℕ × ℕ × ℕ → ℕ × ℕ × ℕ × ℕ :=
  fun (A, B, C, D) =>
    let mask := 2 ^ 32 - 1
    let fg : ℕ × ℕ :=
      if i < 16 then ((B &&& C) ||| ((B ^^^ mask) &&& D), i)
      else if i < 32 then ((D &&& B) ||| ((D ^^^ mask) &&& C), (5 * i + 1) % 16)
      else if i < 48 then (B ^^^ C ^^^ D, (3 * i + 5) % 16)
      else (C ^^^ (B ||| (D ^^^ mask)), (7 * i) % 16)
    let F := (fg.1 + A + md5K.getD i 0 + md5Word blk fg.2) % 2 ^ 32
    (D, (B + rotl32 F (md5S.getD i 0)) % 2 ^ 32, B, C)

/-- Process one 64-byte block: run the 64 rounds and add the result into the
running state, each word `% 2^32`. -/
def md5Block (st : ℕ × ℕ × ℕ × ℕ) (blk : List ℕ) : ℕ × ℕ × ℕ × ℕ :=
  let r := (List.range 64).foldl (fun s i => md5Step blk i s) st
  ((st.1 + r.1) % 2 ^ 32, (st.2.1 + r.2.1) % 2 ^ 32,
   (st.2.2.1 + r.2.2.1) % 2 ^ 32, (st.2.2.2 + r.2.2.2) % 2 ^ 32)

/-- The final MD5 state `(a0, b0, c0, d0)` over a byte message. -/
def md5State (msg : List ℕ) : ℕ × ℕ × ℕ × ℕ :=
  let padded := md5Pad msg
  (chunks64 padded.length padded).foldl md5Block
    (1732584193, 4023233417, 2562383102, 271733878)

/-- Big-endian byte swap of a 32-bit word: the value of its little-endian byte
string read as a big-endian number. -/
def bswap32 (x : ℕ) : ℕ :=
  (x % 256) * 16777216 + (x / 256 % 256) * 65536 +
    (x / 65536 % 256) * 256 + x / 16777216 % 256

/-- The full 16-byte MD5 digest (little-endian serialization of the state). -/
def md5Digest (msg : List ℕ) : List ℕ :=
  let st := md5State msg
  bytesLE 4 st.1 ++ bytesLE 4 st.2.1 ++ bytesLE 4 st.2.2.1 ++ bytesLE 4 st.2.2.2

/-- `int(hashlib.md5(msg).hexdigest()[:8], 16)`: the first four digest bytes
(the little-endian bytes of the state's first word) read as a big-endian
32-bit integer. -/
def md5First8Hex (msg : List ℕ) : ℕ := bswap32 (md5State msg).1

/-! ## `stable_hash_to_0_1` -/

/-- ```python
def stable_hash_to_0_1(seed: str) -> float:
    h = hashlib.md5(seed.encode("utf-8")).hexdigest()
    x = int(h[:8], 16)
    return x / float(0xFFFFFFFF)
``` -/
def stable_hash_to_0_1 (seed : String) : ℚ :=
  (md5First8Hex (utf8Bytes seed) : ℚ) / 4294967295

/-! ## Configuration constants (defaults from the source's environment reads) -/

def KICHI_W : ℚ := 0.80

def JIRO_W : ℚ := 0.20

def SCORE_MIN : ℚ := 1.0

def SCORE_MAX : ℚ := 70.0

def COMPRESS_ENABLE : Bool := true

def COMPRESS_WIDTH : ℚ := 18.0

def TIE_JITTER_ENABLE : Bool := true

def TIE_JITTER_MAX : ℚ := 0.2

def TIE_JITTER_TRIGGER : ℚ := 0.0

def KONSEN_GAP12_MID : ℚ := 0.8

def KONSEN_GAP15_MID : ℚ := 3.0

def FLAT_RANGE_MAX : ℚ := 3.0

def FLAT_MIN_COUNT : ℕ := 10

def KONSEN_ZERO_FIX_ENABLE : Bool := true

def KONSEN_ZERO_MIN : ℚ := 1.2

def KONSEN_ZERO_MAX : ℚ := 9.8

/-! ## `enough_points` — the sufficiency gate

Configuration (`min_n`, read from `MIN_KICHI_N`/`MIN_JIRO_N`) is passed as an
argument, as are the per-race values; Python ints are modelled as `ℤ`. -/

/-- ```python
def enough_points(n_points: int, field_size: int, min_n: int) -> bool:
    if n_points <= 0:
        return False
    th = max(3, min(min_n, max(1, field_size - 1)))
    return n_points >= th
``` -/
def enough_points (n_points field_size min_n : ℤ) : Bool :=
  if n_points ≤ 0 then false
  else decide (n_points ≥ max 3 (min min_n (max 1 (field_size - 1))))

/-! ## `normalize_to_0_100` — the indicator normalizer

Python dicts `dict[int, float]` are modelled as association lists
`List (ℕ × ℚ)`; a dict comprehension over the items becomes a `map` over the
entries, which preserves the key set. -/

/-- ```python
def normalize_to_0_100(vals: dict[int, float]) -> dict[int, float]:
    if not vals:
        return {}
    xs = list(vals.values())
    mn, mx = min(xs), max(xs)
    if mx == mn:
        return {k: 50.0 for k in vals}
    return {k: (v - mn) / (mx - mn) * 100.0 for k, v in vals.items()}
``` -/
def normalize_to_0_100 (vals : List (ℕ × ℚ)) : List (ℕ × ℚ) :=
  if vals.isEmpty then []
  else
    let xs := vals.map (·.2)
    let mn := pyMin xs
    let mx := pyMax xs
    if mx = mn then vals.map (fun p => (p.1, 50))
    else vals.map (fun p => (p.1, (p.2 - mn) / (mx - mn) * 100))

/-! ## `is_flat_score` — the flatness detector

`score_by_umaban` is an association list; `xs = list(values())` is its value
list, so the source's two emptiness tests coincide and are modelled by the
single `[]` case. -/

/-- ```python
def is_flat_score(score_by_umaban: dict[int, float], field_n: int) -> bool:
    if not score_by_umaban:
        return False
    xs = list(score_by_umaban.values())
    if not xs:
        return False
    need = min(FLAT_MIN_COUNT, max(3, field_n))
    if len(xs) < need:
        return False
    rng = max(xs) - min(xs)
    return rng <= FLAT_RANGE_MAX
``` -/
def is_flat_score (flat_min_count : ℕ) (flat_range_max : ℚ)
    (score_by_umaban : List (ℕ × ℚ)) (field_n : ℕ) : Bool :=
  if score_by_umaban.isEmpty then false
  else
    let xs := score_by_umaban.map (·.2)
    let need := min flat_min_count (max 3 field_n)
    if xs.length < need then false
    else decide (pyMax xs - pyMin xs ≤ flat_range_max)

/-! ## `combine_scores` — the score combiner

The two dicts are modelled pointwise as `ℕ → Option ℚ` (`dict.get` is exactly
`Option`-valued lookup).  The source loops over the union of the key sets and
skips a key only when both lookups return `None`, which never happens for a
key of the union; pointwise, the combined map is defined at `k` iff one of the
inputs is. -/

/-- ```python
def combine_scores(kichi_norm, jiro_norm):
    keys = set(kichi_norm.keys()) | set(jiro_norm.keys())
    out = {}
    for k in keys:
        a = kichi_norm.get(k); b = jiro_norm.get(k)
        if a is None and b is None: continue
        if a is None: out[k] = b
        elif b is None: out[k] = a
        else: out[k] = KICHI_W * a + JIRO_W * b
    return out
``` -/
def combine_scores (kichi_w jiro_w : ℚ) (kichi_norm jiro_norm : ℕ → Option ℚ)
    (k : ℕ) : Option ℚ :=
  match kichi_norm k, jiro_norm k with
  | none, none => none
  | none, some b => some b
  | some a, none => some a
  | some a, some b => some (kichi_w * a + jiro_w * b)

/-! ## Display transform -/

/-- ```python
def compress_0_100(v: float) -> float:
    vv = max(0.0, min(100.0, float(v)))
    if not COMPRESS_ENABLE:
        return vv
    w = max(1e-6, COMPRESS_WIDTH)
    z = (vv - 50.0) / w
    y = 50.0 + 50.0 * math.tanh(z)
    return max(0.0, min(100.0, y))
```
`math.tanh` is transcendental, so it is taken as a function parameter `tanh`;
the claims that depend on its behaviour assume only that it is monotone, which
the real hyperbolic tangent is. -/
def compress_0_100 (compress_enable : Bool) (compress_width : ℚ) (tanh : ℚ → ℚ)
    (v : ℚ) : ℚ :=
  let vv := max 0 (min 100 v)
  if ¬compress_enable then vv
  else
    let w := max (1 / 1000000) compress_width
    let z := (vv - 50) / w
    let y := 50 + 50 * tanh z
    max 0 (min 100 y)

/-- ```python
def scale_score_0_100_to_range(v: float) -> float:
    vv = max(0.0, min(100.0, float(v)))
    return SCORE_MIN + (vv / 100.0) * (SCORE_MAX - SCORE_MIN)
``` -/
def scale_score_0_100_to_range (score_min score_max : ℚ) (v : ℚ) : ℚ :=
  score_min + max 0 (min 100 v) / 100 * (score_max - score_min)

/-- ```python
def build_display_scores(total_0_100):
    compressed = {k: compress_0_100(v) for k, v in total_0_100.items()}
    display = {k: scale_score_0_100_to_range(v) for k, v in compressed.items()}
    return display, compressed
``` -/
def build_display_scores (compress_enable : Bool) (compress_width : ℚ)
    (tanh : ℚ → ℚ) (score_min score_max : ℚ) (total_0_100 : List (ℕ × ℚ)) :
    List (ℕ × ℚ) × List (ℕ × ℚ) :=
  let compressed :=
    total_0_100.map (fun p => (p.1, compress_0_100 compress_enable compress_width tanh p.2))
  let display :=
    compressed.map (fun p => (p.1, scale_score_0_100_to_range score_min score_max p.2))
  (display, compressed)

/-- The combined display transform a composite value goes through before
`make_picks` rounds it: compression followed by rescaling, exactly the chain
of `build_display_scores`. -/
def displayOf (compress_enable : Bool) (compress_width : ℚ) (tanh : ℚ → ℚ)
    (score_min score_max : ℚ) (v : ℚ) : ℚ :=
  scale_score_0_100_to_range score_min score_max
    (compress_0_100 compress_enable compress_width tanh v)

/-! ## Picks -/

/-- One entry of the race field (`parse_shutuba_core` output). -/
structure Horse where
  umaban : ℕ
  name : String
  jockey : String
deriving DecidableEq, Repr

/-- One pick dict as built by `make_picks`.  The constant fields `sp`,
`base_index`, `jockey_add` (always `0.0`), the raw annotation and the
passthrough `source` metadata (an opaque URL here; the `z` field is always the
empty dict and carries nothing) are all carried so that frame properties about
the tie jitter are meaningful. -/
structure Pick where
  mark : String
  umaban : ℕ
  name : String
  score : ℚ
  raw_0_100 : Option ℚ
  sp : ℚ
  base_index : ℚ
  jockey : String
  jockey_add : ℚ
  source_url : String
deriving DecidableEq, Repr

def MARKS5 : List String := ["◎", "〇", "▲", "△", "☆"]

/-- ```python
def make_picks(horses, total_score_scaled, total_score_raw01=None):
    ranked = [(float(total_score_scaled.get(h["umaban"], 0.0)), h) for h in horses]
    ranked.sort(key=lambda x: x[0], reverse=True)
    picks = []
    for i, (sc, h) in enumerate(ranked[:5]):
        ...
    return picks
```
`list.sort(reverse=True)` is a stable descending sort, embedded as a stable
merge sort with the "comes not after" test `b.1 ≤ a.1`. -/
def make_picks (horses : List Horse) (total_score_scaled : ℕ → Option ℚ)
    (total_score_raw01 : Option (ℕ → Option ℚ)) : List Pick :=
  let ranked := horses.map (fun h => ((total_score_scaled h.umaban).getD 0, h))
  let sorted := ranked.mergeSort (fun a b => decide (b.1 ≤ a.1))
  (sorted.take 5).enum.map (fun (i, (sc, h)) =>
    { mark := MARKS5.getD i ""
      umaban := h.umaban
      name := h.name
      score := round2 sc
      raw_0_100 := total_score_raw01.map (fun m => round1 ((m h.umaban).getD 0))
      sp := 0
      base_index := 0
      jockey := h.jockey
      jockey_add := 0
      source_url := "" })

/-! ## Tie jitter -/

/-- The new score the jitter writes into one of the top-5 picks:
```python
seed = f"{race_id}:{u}"
r01 = stable_hash_to_0_1(seed)
jitter = r01 * max(0.0, TIE_JITTER_MAX)
new_sc = max(SCORE_MIN, sc - jitter)
p["score"] = round(new_sc, 2)
``` -/
def jitteredScore (score_min tie_jitter_max : ℚ) (race_id : String) (u : ℕ)
    (sc : ℚ) : ℚ :=
  let r01 := stable_hash_to_0_1 (race_id ++ ":" ++ toString u)
  round2 (max score_min (sc - r01 * max 0 tie_jitter_max))

/-- ```python
def apply_tie_jitter_top5(picks, race_id):
    if not TIE_JITTER_ENABLE: return
    if not picks: return
    trigger = SCORE_MAX - max(0.0, TIE_JITTER_TRIGGER)
    top = float(picks[0].get("score"))
    if top < trigger: return
    for p in picks[:5]:
        ... p["score"] = round(new_sc, 2)
```
The in-place mutation of the first five entries becomes mapping the score
update over `take 5` and leaving `drop 5` as it is. -/
def apply_tie_jitter_top5 (tie_jitter_enable : Bool)
    (score_max tie_jitter_trigger tie_jitter_max score_min : ℚ)
    (picks : List Pick) (race_id : String) : List Pick :=
  if ¬tie_jitter_enable then picks
  else
    match picks with
    | [] => []
    | p0 :: rest =>
      if p0.score < score_max - max 0 tie_jitter_trigger then p0 :: rest
      else
        ((p0 :: rest).take 5).map (fun p =>
            { p with score := jitteredScore score_min tie_jitter_max race_id p.umaban p.score }) ++
          (p0 :: rest).drop 5

/-! ## Congestion calculator -/

/-- The return dict of `calc_konsen_from_picks`. -/
structure Konsen where
  value : Option ℚ
  label : String
  gap12 : Option ℚ
  gap15 : Option ℚ
deriving DecidableEq, Repr

/-- ```python
def calc_konsen_from_picks(picks, race_id=None):
    vals = [float(p["score"]) for p in picks]            # all scores are floats
    if len(vals) < 2:
        return {"value": None, "label": "不明", "gap12": None, "gap15": None}
    s1 = vals[0]; s2 = vals[1]
    s5 = vals[4] if len(vals) >= 5 else vals[-1]
    gap12 = max(0.0, s1 - s2); gap15 = max(0.0, s1 - s5)
    r12 = min(1.0, gap12 / max(1e-9, KONSEN_GAP12_MID))
    r15 = min(1.0, gap15 / max(1e-9, KONSEN_GAP15_MID))
    konsen_0_100 = ((1 - r12) * 0.4 + (1 - r15) * 0.6) * 100.0
    konsen_0_100 = max(0.0, min(100.0, konsen_0_100))
    konsen = round(konsen_0_100, 1)
    if KONSEN_ZERO_FIX_ENABLE and konsen == 0.0:
        seed = (race_id or "") + ":konsen0"
        r01 = stable_hash_to_0_1(seed)
        v = KONSEN_ZERO_MIN + r01 * (KONSEN_ZERO_MAX - KONSEN_ZERO_MIN)
        konsen = round(v, 1)
    if konsen >= 80: label = "超混戦"
    elif konsen >= 60: label = "混戦"
    elif konsen >= 30: label = "やや混戦"
    else: label = "順当"
    return {"value": konsen, "label": label,
            "gap12": round(gap12, 2), "gap15": round(gap15, 2)}
```
In this model every pick is a dict carrying a float score, so the source's
per-entry `isinstance`/`float(...)` filter keeps every entry: `vals` is just
the score list.  `race_id or ""` maps both `None` and `""` to `""`, so the
`Option.getD` below agrees with it. -/
def calc_konsen_from_picks (gap12_mid gap15_mid : ℚ) (zero_fix_enable : Bool)
    (zero_min zero_max : ℚ) (picks : List Pick) (race_id : Option String) :
    Konsen :=
  let vals := picks.map (·.score)
  if vals.length < 2 then ⟨none, "不明", none, none⟩
  else
    let s1 := vals.getD 0 0
    let s2 := vals.getD 1 0
    let s5 := if vals.length ≥ 5 then vals.getD 4 0 else vals.getLastD 0
    let gap12 := max 0 (s1 - s2)
    let gap15 := max 0 (s1 - s5)
    let r12 := min 1 (gap12 / max (1 / 1000000000) gap12_mid)
    let r15 := min 1 (gap15 / max (1 / 1000000000) gap15_mid)
    let konsenRaw := ((1 - r12) * 0.4 + (1 - r15) * 0.6) * 100
    let konsenClamped := max 0 (min 100 konsenRaw)
    let konsenRounded := round1 konsenClamped
    let konsen :=
      if zero_fix_enable = true ∧ konsenRounded = 0 then
        round1 (zero_min +
          stable_hash_to_0_1 (race_id.getD "" ++ ":konsen0") * (zero_max - zero_min))
      else konsenRounded
    let label :=
      if konsen ≥ 80 then "超混戦"
      else if konsen ≥ 60 then "混戦"
      else if konsen ≥ 30 then "やや混戦"
      else "順当"
    ⟨some konsen, label, some (round2 gap12), some (round2 gap15)⟩

/-- A minimal pick record for concrete instances: only the horse number and
the score vary, all annotation fields are the defaults `make_picks` writes. -/
def testPick (u : ℕ) (s : ℚ) : Pick :=
  { mark := "", umaban := u, name := "", score := s, raw_0_100 := none,
    sp := 0, base_index := 0, jockey := "", jockey_add := 0, source_url := "" }

/-!
# Claim theorems

Concrete instances are settled by kernel evaluation (`decide`); the rational
operations of Batteries are restored to their definitional reducibility so the
evaluation can unfold them (soundness is unaffected: the kernel ignores
reducibility attributes and rechecks every proof).
-/

set_option allowUnsafeReducibility true

attribute [local semireducible] Rat.ofScientific Rat.mul Rat.inv Rat.add Rat.sub Rat.div

/-!
# Lemmas and claim theorems
-/

theorem roundHalfEven_intCast (n : ℤ) : roundHalfEven (n : ℚ) = n := by
  unfold roundHalfEven
  simp

theorem roundHalfEven_mono {x y : ℚ} (h : x ≤ y) :
    roundHalfEven x ≤ roundHalfEven y := by
  unfold roundHalfEven
  have hf : ⌊x⌋ ≤ ⌊y⌋ := Int.floor_le_floor h
  rcases lt_or_eq_of_le hf with hlt | heq
  · have hx : ⌊x⌋ ≤ ⌊y⌋ - 1 := by omega
    split_ifs <;> omega
  · have h1 : x - ⌊x⌋ ≤ y - ⌊y⌋ := by
      rw [← heq]; linarith
    split_ifs <;> first | rfl | omega | linarith

theorem intCast_le_roundHalfEven {n : ℤ} {x : ℚ} (h : (n : ℚ) ≤ x) :
    n ≤ roundHalfEven x := by
  have := roundHalfEven_mono h
  rwa [roundHalfEven_intCast] at this

theorem roundHalfEven_le_intCast {n : ℤ} {x : ℚ} (h : x ≤ (n : ℚ)) :
    roundHalfEven x ≤ n := by
  have := roundHalfEven_mono h
  rwa [roundHalfEven_intCast] at this

theorem round2_le_of_le {x b : ℚ} (hb : IsCent b) (h : x ≤ b) : round2 x ≤ b := by
  obtain ⟨z, hz⟩ := hb
  have hx : x * 100 ≤ (z : ℚ) := by
    rw [← hz]
    have : (0 : ℚ) < 100 := by norm_num
    nlinarith
  have := roundHalfEven_le_intCast hx
  unfold round2
  rw [div_le_iff₀ (by norm_num : (0:ℚ) < 100)]
  calc (roundHalfEven (x * 100) : ℚ) ≤ (z : ℚ) := by exact_mod_cast this
    _ = b * 100 := hz.symm

theorem le_round2_of_le {x b : ℚ} (hb : IsCent b) (h : b ≤ x) : b ≤ round2 x := by
  obtain ⟨z, hz⟩ := hb
  have hx : (z : ℚ) ≤ x * 100 := by
    rw [← hz]
    nlinarith
  have := intCast_le_roundHalfEven hx
  unfold round2
  rw [le_div_iff₀ (by norm_num : (0:ℚ) < 100)]
  calc b * 100 = (z : ℚ) := hz
    _ ≤ (roundHalfEven (x * 100) : ℚ) := by exact_mod_cast this

theorem round1_le_of_le {x b : ℚ} (hb : IsDeci b) (h : x ≤ b) : round1 x ≤ b := by
  obtain ⟨z, hz⟩ := hb
  have hx : x * 10 ≤ (z : ℚ) := by
    rw [← hz]; nlinarith
  have := roundHalfEven_le_intCast hx
  unfold round1
  rw [div_le_iff₀ (by norm_num : (0:ℚ) < 10)]
  calc (roundHalfEven (x * 10) : ℚ) ≤ (z : ℚ) := by exact_mod_cast this
    _ = b * 10 := hz.symm

theorem le_round1_of_le {x b : ℚ} (hb : IsDeci b) (h : b ≤ x) : b ≤ round1 x := by
  obtain ⟨z, hz⟩ := hb
  have hx : (z : ℚ) ≤ x * 10 := by
    rw [← hz]; nlinarith
  have := intCast_le_roundHalfEven hx
  unfold round1
  rw [le_div_iff₀ (by norm_num : (0:ℚ) < 10)]
  calc b * 10 = (z : ℚ) := hz
    _ ≤ (roundHalfEven (x * 10) : ℚ) := by exact_mod_cast this

theorem foldl_min_le_init (xs : List ℚ) (a : ℚ) : xs.foldl min a ≤ a := by
  induction xs generalizing a with
  | nil => simp
  | cons y ys ih =>
    simp only [List.foldl_cons]
    exact le_trans (ih (min a y)) (min_le_left a y)

theorem foldl_min_le_mem {xs : List ℚ} {x : ℚ} (hx : x ∈ xs) (a : ℚ) :
    xs.foldl min a ≤ x := by
  induction xs generalizing a with
  | nil => cases hx
  | cons y ys ih =>
    simp only [List.foldl_cons]
    rcases List.mem_cons.mp hx with h | h
    · subst h
      exact le_trans (foldl_min_le_init ys (min a x)) (min_le_right a x)
    · exact ih h (min a y)

theorem foldl_min_mem (xs : List ℚ) (a : ℚ) :
    xs.foldl min a = a ∨ xs.foldl min a ∈ xs := by
  induction xs generalizing a with
  | nil => left; rfl
  | cons y ys ih =>
    simp only [List.foldl_cons]
    rcases ih (min a y) with h | h
    · rcases min_cases a y with ⟨h1, _⟩ | ⟨h1, _⟩
      · left; rw [h, h1]
      · right; rw [h, h1]; exact List.mem_cons_self y ys
    · right; exact List.mem_cons_of_mem y h

theorem init_le_foldl_max (xs : List ℚ) (a : ℚ) : a ≤ xs.foldl max a := by
  induction xs generalizing a with
  | nil => simp
  | cons y ys ih =>
    simp only [List.foldl_cons]
    exact le_trans (le_max_left a y) (ih (max a y))

theorem mem_le_foldl_max {xs : List ℚ} {x : ℚ} (hx : x ∈ xs) (a : ℚ) :
    x ≤ xs.foldl max a := by
  induction xs generalizing a with
  | nil => cases hx
  | cons y ys ih =>
    simp only [List.foldl_cons]
    rcases List.mem_cons.mp hx with h | h
    · subst h
      exact le_trans (le_max_right a x) (init_le_foldl_max ys (max a x))
    · exact ih h (max a y)

theorem foldl_max_mem (xs : List ℚ) (a : ℚ) :
    xs.foldl max a = a ∨ xs.foldl max a ∈ xs := by
  induction xs generalizing a with
  | nil => left; rfl
  | cons y ys ih =>
    simp only [List.foldl_cons]
    rcases ih (max a y) with h | h
    · rcases max_cases a y with ⟨h1, _⟩ | ⟨h1, _⟩
      · left; rw [h, h1]
      · right; rw [h, h1]; exact List.mem_cons_self y ys
    · right; exact List.mem_cons_of_mem y h

theorem pyMin_le_mem {xs : List ℚ} {x : ℚ} (hx : x ∈ xs) : pyMin xs ≤ x := by
  cases xs with
  | nil => cases hx
  | cons y ys =>
    simp only [pyMin]
    rcases List.mem_cons.mp hx with h | h
    · subst h; exact foldl_min_le_init ys x
    · exact foldl_min_le_mem h y

theorem pyMin_mem {xs : List ℚ} (h : xs ≠ []) : pyMin xs ∈ xs := by
  cases xs with
  | nil => exact absurd rfl h
  | cons y ys =>
    simp only [pyMin]
    rcases foldl_min_mem ys y with h1 | h1
    · rw [h1]; exact List.mem_cons_self y ys
    · exact List.mem_cons_of_mem y h1

theorem mem_le_pyMax {xs : List ℚ} {x : ℚ} (hx : x ∈ xs) : x ≤ pyMax xs := by
  cases xs with
  | nil => cases hx
  | cons y ys =>
    simp only [pyMax]
    rcases List.mem_cons.mp hx with h | h
    · subst h; exact init_le_foldl_max ys x
    · exact mem_le_foldl_max h y

theorem pyMax_mem {xs : List ℚ} (h : xs ≠ []) : pyMax xs ∈ xs := by
  cases xs with
  | nil => exact absurd rfl h
  | cons y ys =>
    simp only [pyMax]
    rcases foldl_max_mem ys y with h1 | h1
    · rw [h1]; exact List.mem_cons_self y ys
    · exact List.mem_cons_of_mem y h1

/-- RFC 1321 test vector: `md5("") = d41d8cd98f00b204e9800998ecf8427e`. -/
theorem md5_rfc_empty :
    md5Digest [] =
      [212, 29, 140, 217, 143, 0, 178, 4, 233, 128, 9, 152, 236, 248, 66, 126] := by
  decide

/-- RFC 1321 test vector: `md5("abc") = 900150983cd24fb0d6963f7d28e17f72`. -/
theorem md5_rfc_abc :
    md5Digest (utf8Bytes "abc") =
      [144, 1, 80, 152, 60, 210, 79, 176, 214, 150, 63, 125, 40, 225, 127, 114] := by
  decide

theorem bswap32_le (x : ℕ) : bswap32 x ≤ 4294967295 := by
  unfold bswap32
  have h1 : x % 256 < 256 := Nat.mod_lt _ (by norm_num)
  have h2 : x / 256 % 256 < 256 := Nat.mod_lt _ (by norm_num)
  have h3 : x / 65536 % 256 < 256 := Nat.mod_lt _ (by norm_num)
  have h4 : x / 16777216 % 256 < 256 := Nat.mod_lt _ (by norm_num)
  omega

/-- The hash fraction is always in the closed interval `[0, 1]`: the numerator
is a 32-bit value and the denominator is `0xFFFFFFFF = 2^32 - 1`, which the
numerator can attain. -/
theorem stable_hash_to_0_1_bounds (seed : String) :
    0 ≤ stable_hash_to_0_1 seed ∧ stable_hash_to_0_1 seed ≤ 1 := by
  unfold stable_hash_to_0_1 md5First8Hex
  constructor
  · positivity
  · rw [div_le_one (by norm_num : (0:ℚ) < 4294967295)]
    exact_mod_cast bswap32_le (md5State (utf8Bytes seed)).1

/-- **C1** — the Score Combiner: for every pair of normalized maps and every
horse number, a key present in both maps gets `w_primary * primary[key] +
w_secondary * secondary[key]`, a key present in only one map gets exactly that
map's value (not scaled by any weight), and the combined map is defined exactly
on the union of the two key sets. -/
theorem claim_C1_combine_scores (w1 w2 : ℚ) (kichi jiro : ℕ → Option ℚ) (k : ℕ) :
    (∀ a b, kichi k = some a → jiro k = some b →
        combine_scores w1 w2 kichi jiro k = some (w1 * a + w2 * b)) ∧
    (∀ a, kichi k = some a → jiro k = none →
        combine_scores w1 w2 kichi jiro k = some a) ∧
    (∀ b, kichi k = none → jiro k = some b →
        combine_scores w1 w2 kichi jiro k = some b) ∧
    ((combine_scores w1 w2 kichi jiro k).isSome ↔
        (kichi k).isSome ∨ (jiro k).isSome) := by
  refine ⟨?_, ?_, ?_, ?_⟩
  · intro a b ha hb; simp [combine_scores, ha, hb]
  · intro a ha hb; simp [combine_scores, ha, hb]
  · intro b ha hb; simp [combine_scores, ha, hb]
  · unfold combine_scores
    cases kichi k <;> cases jiro k <;> simp

/-- Concrete instance of C1 (the spec's worked example): maps
`{1: 100, 2: 50}` and `{1: 0, 3: 70}` with weights `0.8 / 0.2` give `80.0`
for the shared key `1`, the unscaled `50.0` for key `2` and the unscaled
`70.0` for key `3`. -/
theorem claim_C1_witness :
    combine_scores 0.8 0.2
        (fun k => if k = 1 then some 100 else if k = 2 then some 50 else none)
        (fun k => if k = 1 then some 0 else if k = 3 then some 70 else none) 1 =
        some 80 ∧
    combine_scores 0.8 0.2
        (fun k => if k = 1 then some 100 else if k = 2 then some 50 else none)
        (fun k => if k = 1 then some 0 else if k = 3 then some 70 else none) 2 =
        some 50 ∧
    combine_scores 0.8 0.2
        (fun k => if k = 1 then some 100 else if k = 2 then some 50 else none)
        (fun k => if k = 1 then some 0 else if k = 3 then some 70 else none) 3 =
        some 70 := by
  refine ⟨?_, ?_, ?_⟩
  · have h := (claim_C1_combine_scores 0.8 0.2
      (fun k => if k = 1 then some 100 else if k = 2 then some 50 else none)
      (fun k => if k = 1 then some 0 else if k = 3 then some 70 else none) 1).1
      100 0 rfl rfl
    rw [h]; norm_num
  · exact (claim_C1_combine_scores 0.8 0.2
      (fun k => if k = 1 then some 100 else if k = 2 then some 50 else none)
      (fun k => if k = 1 then some 0 else if k = 3 then some 70 else none) 2).2.1
      50 rfl rfl
  · exact (claim_C1_combine_scores 0.8 0.2
      (fun k => if k = 1 then some 100 else if k = 2 then some 50 else none)
      (fun k => if k = 1 then some 0 else if k = 3 then some 70 else none) 3).2.2.1
      70 rfl rfl

/-- **C3** — the Sufficiency Gate: `enough_points` returns `false` whenever the
point count is `≤ 0`, and for a positive count returns `true` exactly when the
count reaches `max(3, min(min_required, field_size - 1))`.  (The source writes
the threshold with an extra inner `max(1, field_size - 1)`, which never changes
the outer `max 3 (min _ _)` value.) -/
theorem claim_C3_enough_points (n f m : ℤ) :
    (n ≤ 0 → enough_points n f m = false) ∧
    (0 < n → (enough_points n f m = true ↔ max 3 (min m (f - 1)) ≤ n)) := by
  constructor
  · intro h
    simp [enough_points, h]
  · intro h
    have hth : max 3 (min m (max 1 (f - 1))) = max 3 (min m (f - 1)) := by omega
    simp only [enough_points, if_neg (by omega : ¬n ≤ 0), hth, ge_iff_le,
      decide_eq_true_eq]

/-- Concrete instances of C3: a count of 7 passes for a field of 8 with
`min_required = 8` (effective threshold `min(8, 7) = 7`), a count of 3 fails
for a field of 5 with `min_required = 8` (threshold `4`), and a count of 0 is
always insufficient. -/
theorem claim_C3_witness :
    enough_points 7 8 8 = true ∧ enough_points 3 5 8 = false ∧
      enough_points 0 5 8 = false := by
  refine ⟨?_, ?_, ?_⟩
  · exact ((claim_C3_enough_points 7 8 8).2 (by norm_num)).mpr (by norm_num)
  · have h := (claim_C3_enough_points 3 5 8).2 (by norm_num)
    rcases hb : enough_points 3 5 8 with _ | _
    · rfl
    · exact absurd (h.mp hb) (by norm_num)
  · exact (claim_C3_enough_points 0 5 8).1 (by norm_num)

/-- **C8** — the Flatness Detector: an empty map is never flat; a map with
fewer values than `min(min_sample_count, max(3, field_size))` is never flat;
otherwise the map is flat exactly when `max(values) - min(values)` is at most
the max-range threshold. -/
theorem claim_C8_is_flat_score (fmc : ℕ) (frm : ℚ) (m : List (ℕ × ℚ)) (fn : ℕ) :
    (m = [] → is_flat_score fmc frm m fn = false) ∧
    (m.length < min fmc (max 3 fn) → is_flat_score fmc frm m fn = false) ∧
    (m ≠ [] → ¬m.length < min fmc (max 3 fn) →
      (is_flat_score fmc frm m fn = true ↔
        pyMax (m.map (·.2)) - pyMin (m.map (·.2)) ≤ frm)) := by
  refine ⟨?_, ?_, ?_⟩
  · intro h
    subst h
    rfl
  · intro h
    unfold is_flat_score
    rcases m with _ | ⟨p, rest⟩
    · rfl
    · rw [if_neg (by simp)]
      simp only [List.length_map]
      rw [if_pos (by simpa using h)]
  · intro h1 h2
    unfold is_flat_score
    rw [if_neg (by simpa [List.isEmpty_iff] using h1)]
    simp only [List.length_map]
    rw [if_neg (by simpa using h2)]
    simp

/-- Concrete instance of C8 (the spec's worked example): composite
`{1: 52, 2: 50, 3: 49}` with field size 3, threshold 3.0 and min sample 10 has
effective required count `min(10, max(3,3)) = 3`, which is met, and range
`52 - 49 = 3 ≤ 3.0`, so it is flagged flat; dropping one entry leaves too few
samples, so it is not. -/
theorem claim_C8_witness :
    is_flat_score 10 3 [(1, 52), (2, 50), (3, 49)] 3 = true ∧
      is_flat_score 10 3 [(1, 52), (2, 50)] 3 = false := by
  constructor
  · exact ((claim_C8_is_flat_score 10 3 [(1, 52), (2, 50), (3, 49)] 3).2.2
      (by decide) (by decide)).mpr (by norm_num [pyMax, pyMin])
  · exact (claim_C8_is_flat_score 10 3 [(1, 52), (2, 50)] 3).2.1 (by decide)

/-- **C9 counterexample** — the claim asserts the hash fraction is strictly
below 1 for every seed of the form `race_id:horse_number`; it is not: the MD5
digest of `"001870550908:3"` is `ffffffff1c1ca61b...`, so
`int(hexdigest[:8], 16) = 0xFFFFFFFF` and the division by `0xFFFFFFFF`
returns exactly `1.0`. -/
theorem claim_C9_counterexample :
    ¬stable_hash_to_0_1 "001870550908:3" < 1 := by
  have h : md5First8Hex (utf8Bytes "001870550908:3") = 4294967295 := by decide
  unfold stable_hash_to_0_1
  rw [h]
  norm_num

/-- **C9 (amended)** — for every seed string, the hash utility returns a
fraction in the closed interval `[0, 1]`: it is `≥ 0` and `≤ 1` (the value `1`
is attained, see the counterexample, because the 32-bit prefix is divided by
`0xFFFFFFFF = 2^32 - 1` rather than `2^32`), and the same seed always yields
the same fraction (the embedding is a pure function of the seed, as is the
source: `hashlib.md5` is deterministic). -/
theorem claim_C9_stable_hash_range (seed : String) :
    0 ≤ stable_hash_to_0_1 seed ∧ stable_hash_to_0_1 seed ≤ 1 ∧
      ∀ seed2 : String, seed2 = seed →
        stable_hash_to_0_1 seed2 = stable_hash_to_0_1 seed := by
  obtain ⟨h0, h1⟩ := stable_hash_to_0_1_bounds seed
  exact ⟨h0, h1, fun seed2 h => by rw [h]⟩

theorem exists_mem_eq_pyMin {vals : List (ℕ × ℚ)} (h : vals ≠ []) :
    ∃ p ∈ vals, p.2 = pyMin (vals.map (·.2)) := by
  have hxs : vals.map (·.2) ≠ [] := by
    cases vals with
    | nil => exact absurd rfl h
    | cons a l => simp
  obtain ⟨p, hp, hpv⟩ := List.mem_map.mp (pyMin_mem hxs)
  exact ⟨p, hp, hpv⟩

theorem exists_mem_eq_pyMax {vals : List (ℕ × ℚ)} (h : vals ≠ []) :
    ∃ p ∈ vals, p.2 = pyMax (vals.map (·.2)) := by
  have hxs : vals.map (·.2) ≠ [] := by
    cases vals with
    | nil => exact absurd rfl h
    | cons a l => simp
  obtain ⟨p, hp, hpv⟩ := List.mem_map.mp (pyMax_mem hxs)
  exact ⟨p, hp, hpv⟩

theorem pyMin_le_snd {vals : List (ℕ × ℚ)} {p : ℕ × ℚ} (hp : p ∈ vals) :
    pyMin (vals.map (·.2)) ≤ p.2 :=
  pyMin_le_mem (List.mem_map_of_mem (·.2) hp)

theorem snd_le_pyMax {vals : List (ℕ × ℚ)} {p : ℕ × ℚ} (hp : p ∈ vals) :
    p.2 ≤ pyMax (vals.map (·.2)) :=
  mem_le_pyMax (List.mem_map_of_mem (·.2) hp)

/-- **C2** — the Indicator Normalizer: the empty map normalizes to the empty
map; a nonempty map whose values are all equal normalizes to `50.0` at every
key; and a map with two distinct values normalizes every entry to
`(value - min) / (max - min) * 100`, so every output value lies in `[0, 100]`,
a key holding the maximum raw value maps to `100.0` and a key holding the
minimum maps to `0.0`. -/
theorem claim_C2_normalize_to_0_100 (vals : List (ℕ × ℚ)) :
    (vals = [] → normalize_to_0_100 vals = []) ∧
    (vals ≠ [] → (∀ p ∈ vals, ∀ q ∈ vals, p.2 = q.2) →
        normalize_to_0_100 vals = vals.map fun p => (p.1, 50)) ∧
    (∀ p ∈ vals, ∀ q ∈ vals, p.2 ≠ q.2 →
        (normalize_to_0_100 vals =
          vals.map fun r => (r.1,
            (r.2 - pyMin (vals.map (·.2))) /
              (pyMax (vals.map (·.2)) - pyMin (vals.map (·.2))) * 100)) ∧
        (∀ r ∈ normalize_to_0_100 vals, 0 ≤ r.2 ∧ r.2 ≤ 100) ∧
        (∀ r ∈ vals, r.2 = pyMax (vals.map (·.2)) →
          (r.1, (100 : ℚ)) ∈ normalize_to_0_100 vals) ∧
        (∀ r ∈ vals, r.2 = pyMin (vals.map (·.2)) →
          (r.1, (0 : ℚ)) ∈ normalize_to_0_100 vals)) := by
  refine ⟨?_, ?_, ?_⟩
  · intro h
    subst h
    rfl
  · intro hne hall
    obtain ⟨p, hp, hpmin⟩ := exists_mem_eq_pyMin hne
    obtain ⟨q, hq, hqmax⟩ := exists_mem_eq_pyMax hne
    unfold normalize_to_0_100
    rw [if_neg (by simpa [List.isEmpty_iff] using hne),
      if_pos (by rw [← hpmin, ← hqmax]; exact (hall q hq p hp).symm ▸ rfl)]
  · intro p hp q hq hne
    have hvne : vals ≠ [] := fun hc => by simp [hc] at hp
    have hmn_le_mx : pyMin (vals.map (·.2)) ≤ pyMax (vals.map (·.2)) :=
      le_trans (pyMin_le_snd hp) (snd_le_pyMax hp)
    have hlt : pyMin (vals.map (·.2)) < pyMax (vals.map (·.2)) := by
      rcases lt_or_eq_of_le hmn_le_mx with h | h
      · exact h
      · exfalso
        apply hne
        have h1 : p.2 = pyMin (vals.map (·.2)) :=
          le_antisymm (h ▸ snd_le_pyMax hp) (pyMin_le_snd hp)
        have h2 : q.2 = pyMin (vals.map (·.2)) :=
          le_antisymm (h ▸ snd_le_pyMax hq) (pyMin_le_snd hq)
        rw [h1, h2]
    have hd : (0 : ℚ) < pyMax (vals.map (·.2)) - pyMin (vals.map (·.2)) :=
      sub_pos.mpr hlt
    have heq : normalize_to_0_100 vals =
        vals.map fun r => (r.1,
          (r.2 - pyMin (vals.map (·.2))) /
            (pyMax (vals.map (·.2)) - pyMin (vals.map (·.2))) * 100) := by
      unfold normalize_to_0_100
      rw [if_neg (by simpa [List.isEmpty_iff] using hvne), if_neg (ne_of_gt hlt)]
    refine ⟨heq, ?_, ?_, ?_⟩
    · intro r hr
      rw [heq] at hr
      obtain ⟨s, hs, hsv⟩ := List.mem_map.mp hr
      have h0 : pyMin (vals.map (·.2)) ≤ s.2 := pyMin_le_snd hs
      have h1 : s.2 ≤ pyMax (vals.map (·.2)) := snd_le_pyMax hs
      have hval : r.2 =
          (s.2 - pyMin (vals.map (·.2))) /
            (pyMax (vals.map (·.2)) - pyMin (vals.map (·.2))) * 100 :=
        congrArg Prod.snd hsv.symm
      constructor
      · rw [hval]
        exact mul_nonneg (div_nonneg (by linarith) hd.le) (by norm_num)
      · rw [hval]
        rw [div_mul_eq_mul_div, div_le_iff₀ hd]
        nlinarith
    · intro r hr hrmax
      rw [heq]
      have hfr : (fun s : ℕ × ℚ => (s.1,
            (s.2 - pyMin (vals.map (·.2))) /
              (pyMax (vals.map (·.2)) - pyMin (vals.map (·.2))) * 100)) r =
          (r.1, (100 : ℚ)) := by
        dsimp only
        rw [hrmax, div_self (ne_of_gt hd), one_mul]
      rw [← hfr]
      exact List.mem_map_of_mem _ hr
    · intro r hr hrmin
      rw [heq]
      have hfr : (fun s : ℕ × ℚ => (s.1,
            (s.2 - pyMin (vals.map (·.2))) /
              (pyMax (vals.map (·.2)) - pyMin (vals.map (·.2))) * 100)) r =
          (r.1, (0 : ℚ)) := by
        dsimp only
        rw [hrmin, sub_self, zero_div, zero_mul]
      rw [← hfr]
      exact List.mem_map_of_mem _ hr

/-- Concrete instances of C2 (the spec's worked examples): the empty map stays
empty, the all-tied map `{1: 5, 2: 5}` goes to constant `50.0`, and
`{1: 80, 2: 60, 3: 40}` normalizes to `{1: 100.0, 2: 50.0, 3: 0.0}`. -/
theorem claim_C2_witness :
    normalize_to_0_100 [] = [] ∧
    normalize_to_0_100 [(1, 5), (2, 5)] = [(1, 50), (2, 50)] ∧
    normalize_to_0_100 [(1, 80), (2, 60), (3, 40)] = [(1, 100), (2, 50), (3, 0)] := by
  refine ⟨(claim_C2_normalize_to_0_100 []).1 rfl, ?_, ?_⟩
  · have h := (claim_C2_normalize_to_0_100 [(1, 5), (2, 5)]).2.1 (by simp)
      (by intro p hp q hq; fin_cases hp <;> fin_cases hq <;> rfl)
    rw [h]
    rfl
  · have h := ((claim_C2_normalize_to_0_100 [(1, 80), (2, 60), (3, 40)]).2.2
      (1, 80) (by simp) (3, 40) (by simp) (by norm_num)).1
    rw [h]
    norm_num [pyMin, pyMax]

theorem scale_score_bounds {smin smax : ℚ} (hs : smin ≤ smax) (v : ℚ) :
    smin ≤ scale_score_0_100_to_range smin smax v ∧
      scale_score_0_100_to_range smin smax v ≤ smax := by
  unfold scale_score_0_100_to_range
  have h0 : (0 : ℚ) ≤ max 0 (min 100 v) := le_max_left 0 _
  have h1 : max 0 (min 100 v) ≤ 100 := max_le (by norm_num) (min_le_left 100 v)
  constructor
  · nlinarith
  · nlinarith

theorem scale_score_mono {smin smax : ℚ} (hs : smin ≤ smax) {a b : ℚ}
    (hab : a ≤ b) :
    scale_score_0_100_to_range smin smax a ≤ scale_score_0_100_to_range smin smax b := by
  unfold scale_score_0_100_to_range
  have hc : max 0 (min 100 a) ≤ max 0 (min 100 b) :=
    max_le_max le_rfl (min_le_min le_rfl hab)
  have h0 : (0 : ℚ) ≤ max 0 (min 100 a) := le_max_left 0 _
  nlinarith

theorem compress_0_100_mono (ce : Bool) (cw : ℚ) (tanh : ℚ → ℚ)
    (ht : Monotone tanh) {a b : ℚ} (hab : a ≤ b) :
    compress_0_100 ce cw tanh a ≤ compress_0_100 ce cw tanh b := by
  simp only [compress_0_100]
  have hc : max 0 (min 100 a) ≤ max 0 (min 100 b) :=
    max_le_max le_rfl (min_le_min le_rfl hab)
  by_cases hce : ce = true
  · rw [if_neg (by simp [hce]), if_neg (by simp [hce])]
    have hw : (0 : ℚ) < max (1 / 1000000) cw :=
      lt_of_lt_of_le (by norm_num) (le_max_left _ _)
    have hz : (max 0 (min 100 a) - 50) / max (1 / 1000000) cw ≤
        (max 0 (min 100 b) - 50) / max (1 / 1000000) cw := by
      apply div_le_div_of_nonneg_right _ hw.le
      linarith
    have hy := ht hz
    exact max_le_max le_rfl (min_le_min le_rfl (by linarith))
  · rw [if_pos (by simp [hce]), if_pos (by simp [hce])]
    exact hc

/-- **C5** — the Display Transformer (compression then rescaling) is
monotonically non-decreasing over `[0, 100]` for a monotone `tanh` and a
non-inverted display range, and equal inputs always yield equal outputs. -/
theorem claim_C5_display_monotone (ce : Bool) (cw : ℚ) (tanh : ℚ → ℚ)
    (ht : Monotone tanh) (smin smax : ℚ) (hs : smin ≤ smax) (a b : ℚ)
    (h0 : 0 ≤ a) (hab : a ≤ b) (h100 : b ≤ 100) :
    displayOf ce cw tanh smin smax a ≤ displayOf ce cw tanh smin smax b ∧
      (a = b → displayOf ce cw tanh smin smax a = displayOf ce cw tanh smin smax b) := by
  refine ⟨?_, fun h => by rw [h]⟩
  exact scale_score_mono hs (compress_0_100_mono ce cw tanh ht hab)

/-- Concrete instance of C5 at the default configuration (width 18, range
`[1, 70]`), with the identity as the monotone transfer function. -/
theorem claim_C5_witness :
    displayOf true 18 id 1 70 10 ≤ displayOf true 18 id 1 70 20 :=
  (claim_C5_display_monotone true 18 id monotone_id 1 70 (by norm_num) 10 20
    (by norm_num) (by norm_num) (by norm_num)).1

/-- The tie jitter either leaves the pick list unchanged (disabled, empty, or
trigger not met) or rewrites the scores of the first five picks with
`jitteredScore` and keeps the rest — the two shapes of
`apply_tie_jitter_top5`. -/
theorem apply_tie_jitter_top5_cases (tje : Bool) (smax tjt tjm smin : ℚ)
    (picks : List Pick) (rid : String) :
    apply_tie_jitter_top5 tje smax tjt tjm smin picks rid = picks ∨
      apply_tie_jitter_top5 tje smax tjt tjm smin picks rid =
        (picks.take 5).map (fun p =>
            { p with score := jitteredScore smin tjm rid p.umaban p.score }) ++
          picks.drop 5 := by
  cases picks with
  | nil =>
    left
    simp only [apply_tie_jitter_top5]
    split_ifs <;> rfl
  | cons p0 rest =>
    simp only [apply_tie_jitter_top5]
    split_ifs with h1 h2 <;> first | (left; rfl) | (right; rfl)

theorem jitteredScore_mem_range {smin smax : ℚ} (tjm : ℚ) (hc1 : IsCent smin)
    (hc2 : IsCent smax) (rid : String) (u : ℕ) {sc : ℚ}
    (h1 : smin ≤ sc) (h2 : sc ≤ smax) :
    smin ≤ jitteredScore smin tjm rid u sc ∧
      jitteredScore smin tjm rid u sc ≤ smax := by
  simp only [jitteredScore]
  have hr := stable_hash_to_0_1_bounds (rid ++ ":" ++ toString u)
  have hj : 0 ≤ stable_hash_to_0_1 (rid ++ ":" ++ toString u) * max 0 tjm :=
    mul_nonneg hr.1 (le_max_left 0 tjm)
  constructor
  · exact le_round2_of_le hc1 (le_max_left smin _)
  · exact round2_le_of_le hc2 (max_le (h1.trans h2) (by linarith))

theorem jitteredScore_le_self {smin : ℚ} (tjm : ℚ) (rid : String) (u : ℕ)
    {sc : ℚ} (hsc : IsCent sc) (h1 : smin ≤ sc) :
    jitteredScore smin tjm rid u sc ≤ sc := by
  simp only [jitteredScore]
  have hr := stable_hash_to_0_1_bounds (rid ++ ":" ++ toString u)
  have hj : 0 ≤ stable_hash_to_0_1 (rid ++ ":" ++ toString u) * max 0 tjm :=
    mul_nonneg hr.1 (le_max_left 0 tjm)
  exact round2_le_of_le hsc (max_le h1 (by linarith))

/-- **C4** — display scores stay in the configured `[SCORE_MIN, SCORE_MAX]`
range (default `[1.0, 70.0]`; the bounds are assumed expressible with two
decimals, as the defaults are, so that the 2-decimal rounding cannot cross
them): the Display Transformer lands in the range for every composite input,
so does its 2-decimal rounding as emitted by `make_picks`, and the tie jitter
maps a pick list whose scores are in the range to a pick list whose scores are
in the range — in particular the jitter's clamped subtraction never goes below
the display minimum. -/
theorem claim_C4_display_scores_in_range (smin smax : ℚ) (hs : smin ≤ smax)
    (hc1 : IsCent smin) (hc2 : IsCent smax) :
    (∀ (ce : Bool) (cw : ℚ) (tanh : ℚ → ℚ) (v : ℚ),
        smin ≤ displayOf ce cw tanh smin smax v ∧
          displayOf ce cw tanh smin smax v ≤ smax) ∧
    (∀ (ce : Bool) (cw : ℚ) (tanh : ℚ → ℚ) (v : ℚ),
        smin ≤ round2 (displayOf ce cw tanh smin smax v) ∧
          round2 (displayOf ce cw tanh smin smax v) ≤ smax) ∧
    (∀ (tje : Bool) (tjt tjm : ℚ) (picks : List Pick) (rid : String),
        (∀ p ∈ picks, smin ≤ p.score ∧ p.score ≤ smax) →
        ∀ q ∈ apply_tie_jitter_top5 tje smax tjt tjm smin picks rid,
          smin ≤ q.score ∧ q.score ≤ smax) := by
  refine ⟨?_, ?_, ?_⟩
  · intro ce cw tanh v
    exact scale_score_bounds hs _
  · intro ce cw tanh v
    obtain ⟨ha, hb⟩ := scale_score_bounds hs (compress_0_100 ce cw tanh v)
    exact ⟨le_round2_of_le hc1 ha, round2_le_of_le hc2 hb⟩
  · intro tje tjt tjm picks rid hin q hq
    rcases apply_tie_jitter_top5_cases tje smax tjt tjm smin picks rid with h | h
    · rw [h] at hq
      exact hin q hq
    · rw [h] at hq
      rcases List.mem_append.mp hq with hq | hq
      · obtain ⟨p, hp, hpq⟩ := List.mem_map.mp hq
        have hpmem : p ∈ picks := List.mem_of_mem_take hp
        obtain ⟨hpl, hpr⟩ := hin p hpmem
        rw [← hpq]
        exact jitteredScore_mem_range tjm hc1 hc2 rid p.umaban hpl hpr
      · exact hin q (List.mem_of_mem_drop hq)

/-- Concrete instance of C4 at the default `[1, 70]` range: an out-of-scale
composite value 150 is displayed inside the range, and jittering a top-5 list
of in-range scores keeps every score in range. -/
theorem claim_C4_witness :
    (1 : ℚ) ≤ displayOf true 18 id 1 70 150 ∧
      displayOf true 18 id 1 70 150 ≤ 70 :=
  (claim_C4_display_scores_in_range 1 70 (by norm_num) ⟨100, by norm_num⟩
    ⟨7000, by norm_num⟩).1 true 18 id 150

theorem IsDeci_zero : IsDeci 0 := ⟨0, by norm_num⟩

theorem IsDeci_hundred : IsDeci 100 := ⟨1000, by norm_num⟩

theorem IsCent_zero : IsCent 0 := ⟨0, by norm_num⟩

/-- **C6** — the Congestion Calculator: with fewer than 2 scores it returns the
null value with the "不明" (unknown) label and null gaps — not an exception
(the embedding is a total function); with at least 2 scores, and a zero-fix
fallback range inside `[0, 100]` (the default `[1.2, 9.8]` is), it returns a
value in `[0, 100]` (never null, never negative) and both gaps are `≥ 0`. -/
theorem claim_C6_calc_konsen (g12 g15 : ℚ) (zfe : Bool) (zmin zmax : ℚ)
    (hz0 : 0 ≤ zmin) (hz1 : zmin ≤ zmax) (hz2 : zmax ≤ 100)
    (picks : List Pick) (rid : Option String) :
    (picks.length < 2 →
      calc_konsen_from_picks g12 g15 zfe zmin zmax picks rid =
        ⟨none, "不明", none, none⟩) ∧
    (2 ≤ picks.length →
      (∃ v, (calc_konsen_from_picks g12 g15 zfe zmin zmax picks rid).value = some v ∧
          0 ≤ v ∧ v ≤ 100) ∧
      (∃ g, (calc_konsen_from_picks g12 g15 zfe zmin zmax picks rid).gap12 = some g ∧
          0 ≤ g) ∧
      (∃ g, (calc_konsen_from_picks g12 g15 zfe zmin zmax picks rid).gap15 = some g ∧
          0 ≤ g)) := by
  constructor
  · intro h
    simp only [calc_konsen_from_picks, List.length_map]
    rw [if_pos h]
  · intro h
    simp only [calc_konsen_from_picks, List.length_map]
    rw [if_neg (by omega)]
    refine ⟨⟨_, rfl, ?_, ?_⟩, ⟨_, rfl, ?_⟩, ⟨_, rfl, ?_⟩⟩
    · have hA : 0 ≤ round1 (zmin +
          stable_hash_to_0_1 ((rid.getD "") ++ ":konsen0") * (zmax - zmin)) := by
        apply le_round1_of_le IsDeci_zero
        have hr := stable_hash_to_0_1_bounds ((rid.getD "") ++ ":konsen0")
        nlinarith
      have hB : ∀ y : ℚ, 0 ≤ round1 (max 0 (min 100 y)) :=
        fun y => le_round1_of_le IsDeci_zero (le_max_left 0 _)
      split_ifs <;> first | exact hA | exact hB _
    · have hA : round1 (zmin +
          stable_hash_to_0_1 ((rid.getD "") ++ ":konsen0") * (zmax - zmin)) ≤ 100 := by
        apply round1_le_of_le IsDeci_hundred
        have hr := stable_hash_to_0_1_bounds ((rid.getD "") ++ ":konsen0")
        nlinarith
      have hB : ∀ y : ℚ, round1 (max 0 (min 100 y)) ≤ 100 :=
        fun y => round1_le_of_le IsDeci_hundred
          (max_le (by norm_num) (min_le_left 100 y))
      split_ifs <;> first | exact hA | exact hB _
    · exact le_round2_of_le IsCent_zero (le_max_left 0 _)
    · exact le_round2_of_le IsCent_zero (le_max_left 0 _)

/-- Concrete instances of C6: the empty pick list and a single pick give the
null/unknown record; a two-pick list gives a non-null value in `[0, 100]`. -/
theorem claim_C6_witness :
    calc_konsen_from_picks 0.8 3 true 1.2 9.8 [] none = ⟨none, "不明", none, none⟩ ∧
    calc_konsen_from_picks 0.8 3 true 1.2 9.8 [testPick 1 70] none =
      ⟨none, "不明", none, none⟩ ∧
    (∃ v, (calc_konsen_from_picks 0.8 3 true 1.2 9.8
        [testPick 1 70, testPick 2 69] none).value = some v ∧ 0 ≤ v ∧ v ≤ 100) := by
  refine ⟨?_, ?_, ?_⟩
  · exact (claim_C6_calc_konsen 0.8 3 true 1.2 9.8 (by norm_num) (by norm_num)
      (by norm_num) [] none).1 (by norm_num)
  · exact (claim_C6_calc_konsen 0.8 3 true 1.2 9.8 (by norm_num) (by norm_num)
      (by norm_num) [testPick 1 70] none).1 (by norm_num)
  · exact ((claim_C6_calc_konsen 0.8 3 true 1.2 9.8 (by norm_num) (by norm_num)
      (by norm_num) [testPick 1 70, testPick 2 69] none).2 (by norm_num)).1

/-- **C7** — the zero-fix of the Congestion Calculator: when at least 2 scores
are available and the rounded congestion comes out exactly `0.0` (stated
through the calculator itself with the zero-fix disabled, which returns that
rounded value unchanged), the enabled calculator instead returns
`round(zero_min + stable_hash(race_id + ":konsen0") * (zero_max - zero_min), 1)`
— a value derived deterministically from the race identifier with the distinct
seed salt `":konsen0"`, lying in the configured fallback range (default
`[1.2, 9.8]`, assumed expressible with one decimal and positive, as the
defaults are) and therefore never literally `0.0`. -/
theorem claim_C7_konsen_zero_fix (g12 g15 : ℚ) (zmin zmax : ℚ)
    (hd1 : IsDeci zmin) (hd2 : IsDeci zmax) (hzle : zmin ≤ zmax) (hzpos : 0 < zmin)
    (picks : List Pick) (rid : Option String) (hlen : 2 ≤ picks.length)
    (hzero : (calc_konsen_from_picks g12 g15 false zmin zmax picks rid).value =
      some 0) :
    ∃ v, (calc_konsen_from_picks g12 g15 true zmin zmax picks rid).value = some v ∧
      v = round1 (zmin +
        stable_hash_to_0_1 ((rid.getD "") ++ ":konsen0") * (zmax - zmin)) ∧
      zmin ≤ v ∧ v ≤ zmax ∧ v ≠ 0 := by
  simp only [calc_konsen_from_picks, List.length_map] at hzero ⊢
  rw [if_neg (by omega)] at hzero
  rw [if_neg (by omega)]
  rw [if_neg (by simp)] at hzero
  have hK := Option.some_injective ℚ hzero
  rw [if_pos ⟨trivial, hK⟩]
  have hr := stable_hash_to_0_1_bounds ((rid.getD "") ++ ":konsen0")
  have hlo : zmin ≤ zmin +
      stable_hash_to_0_1 ((rid.getD "") ++ ":konsen0") * (zmax - zmin) := by
    nlinarith
  have hhi : zmin +
      stable_hash_to_0_1 ((rid.getD "") ++ ":konsen0") * (zmax - zmin) ≤ zmax := by
    nlinarith
  have hvlo := le_round1_of_le hd1 hlo
  refine ⟨_, rfl, rfl, hvlo, round1_le_of_le hd2 hhi, ?_⟩
  have : (0 : ℚ) < round1 (zmin +
      stable_hash_to_0_1 ((rid.getD "") ++ ":konsen0") * (zmax - zmin)) :=
    lt_of_lt_of_le hzpos hvlo
  exact ne_of_gt this

/-- Concrete instance of C7: the strictly descending score list
`[70, 60, 50, 40, 30]` has both gaps past their midpoints, so raw congestion
rounds to `0.0`; with the zero-fix enabled the emitted value for race
`"202605010201"` is in `[1.2, 9.8]` and nonzero. -/
theorem claim_C7_witness :
    ∃ v, (calc_konsen_from_picks 0.8 3 true 1.2 9.8
        [testPick 1 70, testPick 2 60, testPick 3 50, testPick 4 40, testPick 5 30]
        (some "202605010201")).value = some v ∧
      (1.2 : ℚ) ≤ v ∧ v ≤ 9.8 ∧ v ≠ 0 := by
  obtain ⟨v, h1, _, h3, h4, h5⟩ := claim_C7_konsen_zero_fix 0.8 3 1.2 9.8
    ⟨12, by norm_num⟩ ⟨98, by norm_num⟩ (by norm_num) (by norm_num)
    [testPick 1 70, testPick 2 60, testPick 3 50, testPick 4 40, testPick 5 30]
    (some "202605010201") (by norm_num) (by decide)
  exact ⟨v, h1, h3, h4, h5⟩

/-- **C10 counterexample** — "no pick's score ever increases" fails as stated:
with the default configuration (`SCORE_MAX = 70`, trigger offset 0, max jitter
0.2, `SCORE_MIN = 1`), race `"000000001224"` and input scores
`[70, 0.5, 1.008]`, the trigger holds (top score 70) and the jitter rewrites
the scores to `[69.91, 1.0, 1.01]`: the second pick's score rises from `0.5`
to `1.0` (the clamp lifts a score below the display minimum up to it) and the
third rises from `1.008` to `1.01` (2-decimal rounding of a score that is not
a 2-decimal value rounds upward past it). -/
theorem claim_C10_counterexample :
    (apply_tie_jitter_top5 true 70 0 0.2 1
        [testPick 1 70, testPick 2 0.5, testPick 3 1.008]
        "000000001224").map Pick.score = [69.91, 1, 1.01] ∧
      (0.5 : ℚ) < 1 ∧ (1.008 : ℚ) < 1.01 := by
  refine ⟨by decide, by norm_num, by norm_num⟩

/-- **C10 (amended)** — on every pick list on which the jitter's trigger
condition holds (enabled, nonempty, top score at least `SCORE_MAX` minus the
trigger offset), the jitter changes only the `score` field of at most the
first five picks: the length is unchanged, every pick from the sixth on is
unchanged, and each of the first five keeps its mark, horse number, name,
jockey, raw annotation and all other fields — all of this unconditionally;
and a jittered pick whose score was at least the display minimum and an exact
2-decimal value (as every score `make_picks` produces from in-range display
scores is) never sees its score increase. -/
theorem claim_C10_jitter_frame (smax tjt tjm smin : ℚ)
    (p0 : Pick) (rest : List Pick) (rid : String)
    (htr : ¬p0.score < smax - max 0 tjt) :
    (apply_tie_jitter_top5 true smax tjt tjm smin (p0 :: rest) rid).length =
      (p0 :: rest).length ∧
    (∀ i, 5 ≤ i →
      (apply_tie_jitter_top5 true smax tjt tjm smin (p0 :: rest) rid)[i]? =
        (p0 :: rest)[i]?) ∧
    (∀ i, i < 5 → ∀ p q, (p0 :: rest)[i]? = some p →
      (apply_tie_jitter_top5 true smax tjt tjm smin (p0 :: rest) rid)[i]? = some q →
      q.mark = p.mark ∧ q.umaban = p.umaban ∧ q.name = p.name ∧
        q.jockey = p.jockey ∧ q.raw_0_100 = p.raw_0_100 ∧ q.sp = p.sp ∧
        q.base_index = p.base_index ∧ q.jockey_add = p.jockey_add ∧
        q.source_url = p.source_url ∧
        (smin ≤ p.score → IsCent p.score → q.score ≤ p.score)) := by
  have hout : apply_tie_jitter_top5 true smax tjt tjm smin (p0 :: rest) rid =
      ((p0 :: rest).take 5).map (fun p =>
          { p with score := jitteredScore smin tjm rid p.umaban p.score }) ++
        (p0 :: rest).drop 5 := by
    simp only [apply_tie_jitter_top5]
    rw [if_neg (by simp), if_neg htr]
  refine ⟨?_, ?_, ?_⟩
  · rw [hout]
    simp only [List.length_append, List.length_map, List.length_take,
      List.length_drop]
    omega
  · intro i hi
    rw [hout]
    rw [List.getElem?_append_right (by
      simp only [List.length_map, List.length_take]
      omega)]
    simp only [List.length_map, List.length_take]
    by_cases h5 : 5 ≤ (p0 :: rest).length
    · rw [List.getElem?_drop]
      congr 1
      omega
    · have h1 : ((p0 :: rest).drop 5) = [] := by
        apply List.drop_eq_nil_of_le
        omega
      rw [h1]
      rw [List.getElem?_eq_none (by simp), List.getElem?_eq_none (by omega)]
  · intro i hi p q hp hq
    obtain ⟨hilt, hieq⟩ := List.getElem?_eq_some.mp hp
    rw [hout] at hq
    rw [List.getElem?_append_left (by
      simp only [List.length_map, List.length_take]
      omega)] at hq
    rw [List.getElem?_map, List.getElem?_take, if_pos hi, hp,
      Option.map_some'] at hq
    have hq' : q = { p with score := jitteredScore smin tjm rid p.umaban p.score } :=
      (Option.some_injective _ hq.symm)
    subst hq'
    refine ⟨rfl, rfl, rfl, rfl, rfl, rfl, rfl, rfl, rfl, ?_⟩
    intro hpl hpc
    exact jitteredScore_le_self tjm rid p.umaban hpc hpl

/-- Concrete instance of the amended C10: jittering
`[70.0, 44.37]` (both 2-decimal scores ≥ 1) for race `"202605010201"` keeps
the list length 2, and pick 2 keeps its horse number while its score does not
increase. -/
theorem claim_C10_witness :
    (apply_tie_jitter_top5 true 70 0 0.2 1
        [testPick 1 70, testPick 2 44.37] "202605010201").length = 2 ∧
    ∀ q, (apply_tie_jitter_top5 true 70 0 0.2 1
        [testPick 1 70, testPick 2 44.37] "202605010201")[1]? = some q →
      q.umaban = 2 ∧ q.score ≤ (44.37 : ℚ) := by
  obtain ⟨hlen, _, hfirst⟩ := claim_C10_jitter_frame 70 0 0.2 1
    (testPick 1 70) [testPick 2 44.37] "202605010201"
    (by norm_num [testPick])
  refine ⟨hlen, ?_⟩
  intro q hq
  have h := hfirst 1 (by norm_num) (testPick 2 44.37) q rfl hq
  exact ⟨h.2.1, h.2.2.2.2.2.2.2.2.2
    (by norm_num [testPick]) ⟨4437, by norm_num [testPick]⟩⟩

end JraPredict
